import Mathlib

/-!
Verification of the request-orchestration / caching / cloze-parsing core of the
`gpt-flashcards` repository (`flashcards/sentences.py`, `flashcards/__main__.py`).

Python strings are modelled as `List Char`; machine text processing (regular
expressions, `str.split`, `str.strip`, `str.casefold`) is translated into
explicit structural recursion over character lists.  Stateful components (the
sqlite sentence cache, the rate limiter, the openai client calls) are modelled
by explicit state records and step relations; Python exceptions become an
explicit error type threaded through `Except`.
-/

/-- Shorthand: the character list underlying a string literal. -/
def str (s : String) : List Char := s.data

/-- The opening cloze delimiter of `cloze_re` (a left brace). -/
def lbrace : Char := Char.ofNat 123

/-- The closing cloze delimiter of `cloze_re` (a right brace). -/
def rbrace : Char := Char.ofNat 125

/-- The newline character. -/
def nl : Char := Char.ofNat 10

/-- `breakAt c s` splits `s` at the first occurrence of the character `c`:
it returns `some (a, b)` with `s = a ++ c :: b` and `c ∉ a`, or `none` when
`c` does not occur.  This is the basic scanning step used to model the regex
searches of `sentences.py`. -/
def breakAt (c : Char) : List Char → Option (List Char × List Char)
  | [] => none
  | x :: xs =>
    if x = c then some ([], xs)
    else
      match breakAt c xs with
      | none => none
      | some (a, b) => some (x :: a, b)

/-- One `finditer` pass of `cloze_re = r"\x7b([^\x7d]*)\x7d"` over the input,
accumulating the context fragments (text between matches) and the deletions
(text inside the delimiters), exactly as `Cloze.from_str` does.  The regex
matches from a left brace to the first right brace after it, so a match exists
iff the first left brace has some right brace after it.  `fuel` bounds the
recursion; every step consumes at least the two delimiter characters, so
`fuel = s.length` always suffices. -/
def fromStrAux : Nat → List Char → List (List Char) × List (List Char)
  | 0, s => ([s], [])
  | fuel + 1, s =>
    match breakAt lbrace s with
    | none => ([s], [])
    | some (pre, rest) =>
      match breakAt rbrace rest with
      | none => ([s], [])
      | some (del, rest2) =>
        let r := fromStrAux fuel rest2
        (pre :: r.1, del :: r.2)

/-- The `Cloze` dataclass of `sentences.py`: `context` holds the text around
the delimiter-marked spans, `deletions` the marked spans themselves. -/
structure Cloze where
  context : List (List Char)
  deletions : List (List Char)
deriving DecidableEq, Repr

/-- `Cloze.from_str`: parse a raw string into a `Cloze` by scanning for
delimiter-marked spans with `cloze_re.finditer`. -/
def Cloze.from_str (s : List Char) : Cloze :=
  let r := fromStrAux s.length s
  ⟨r.1, r.2⟩

/-- The emphasis wrapping `"<b>" + value + "</b>"` applied to each filler
value in `Cloze.fill`. -/
def wrapB (v : List Char) : List Char := str "<b>" ++ v ++ str "</b>"

/-- `itertools.chain.from_iterable` over a list of pairs: flatten pairs in
order. -/
def flatPairs : List (List Char × List Char) → List (List Char)
  | [] => []
  | p :: rest => p.1 :: p.2 :: flatPairs rest

/-- `zip(xs, itertools.cycle(ys))` starting at cycle position `i` (for
nonempty `ys`): each element of `xs` is paired with `ys` indexed cyclically. -/
def zipCycleAux (ys : List (List Char)) : Nat → List (List Char) → List (List Char × List Char)
  | _, [] => []
  | i, x :: xs => (x, ys.getD (i % ys.length) []) :: zipCycleAux ys (i + 1) xs

/-- `Cloze.fill(*values)`: if no values are given a single literal placeholder
`"..."` is used; values are emphasised with `wrapB`, consumed cyclically
against the context fragments, and the interleaving is truncated to
`2 * len(context) - 1` pieces before concatenation. -/
def Cloze.fill (c : Cloze) (values : List (List Char)) : List Char :=
  let values := if values = [] then [str "..."] else values
  let wrapped := values.map wrapB
  let parts := flatPairs (zipCycleAux wrapped 0 c.context)
  (parts.take (2 * c.context.length - 1)).flatten

/-- The `cloze` cached property: the masked view, `fill()` with no values. -/
def Cloze.cloze (c : Cloze) : List Char := c.fill []

/-- The `sentence` cached property: `fill(*self.deletions)`. -/
def Cloze.sentence (c : Cloze) : List Char := c.fill c.deletions

/-- Number of indices at which `pat` occurs as a contiguous substring of `s`
(used to state claims about placeholder occurrences). -/
def countOccs (pat : List Char) : List Char → Nat
  | [] => if pat = [] then 1 else 0
  | s@(_ :: rest) => (if pat.isPrefixOf s then 1 else 0) + countOccs pat rest

/-- `sep`-separated concatenation of a list of fragments:
`c0 ++ sep ++ c1 ++ sep ++ ... ++ cN`. -/
def seplist (sep : List Char) : List (List Char) → List Char
  | [] => []
  | c :: cs =>
    match cs with
    | [] => c
    | _ :: _ => c ++ sep ++ seplist sep cs

/-! ## The persistent sentence cache (`sentences.db`)

The sqlite store has a `words(id, word)` table and a `sentences(id, word, sentence)`
table.  It is modelled by the lists of rows of the two tables, in rowid
(insertion) order; `nextWordId` models the autoincrement column of `words`.
`init_cache` creates the empty tables, so a freshly initialised store is
`Db.empty`. -/

structure Db where
  words : List (Nat × List Char)
  sents : List (Nat × List Char)
  nextWordId : Nat
deriving DecidableEq, Repr

/-- The cache state produced by `init_cache` on a fresh database file. -/
def Db.empty : Db := ⟨[], [], 1⟩

/-- `SELECT id FROM words WHERE word = ?` followed by `fetchone`: the id of
the first `words` row holding `word`, if any. -/
def findWordId (word : List Char) : List (Nat × List Char) → Option Nat
  | [] => none
  | r :: rest => if r.2 = word then some r.1 else findWordId word rest

/-- The sentences of the rows of `sents` whose foreign key is `wid`, in
insertion order. -/
def rowsFor (wid : Nat) : List (Nat × List Char) → List (List Char)
  | [] => []
  | r :: rest => if r.1 = wid then r.2 :: rowsFor wid rest else rowsFor wid rest

/-- Drop empty strings, modelling the `if row[0]` filter of
`decache_sentences` (which drops both the NULL row produced by the left join
for a word with no sentences, and empty sentence strings). -/
def nonEmptyOnly : List (List Char) → List (List Char)
  | [] => []
  | s :: rest => if s = [] then nonEmptyOnly rest else s :: nonEmptyOnly rest

/-- `DELETE FROM sentences WHERE word = ?`. -/
def removeRows (wid : Nat) : List (Nat × List Char) → List (Nat × List Char)
  | [] => []
  | r :: rest => if r.1 = wid then removeRows wid rest else r :: removeRows wid rest

/-- `encache_sentences(word, sentences)`: look up the word's id, inserting a
fresh `words` row if absent, then append one `sentences` row per string. -/
def encache_sentences (word : List Char) (sentences : List (List Char)) (db : Db) : Db :=
  let db :=
    match findWordId word db.words with
    | some _ => db
    | none =>
      { db with
        words := db.words ++ [(db.nextWordId, word)]
        nextWordId := db.nextWordId + 1 }
  match findWordId word db.words with
  | none => db
  | some wid => { db with sents := db.sents ++ sentences.map (fun s => (wid, s)) }

/-- `decache_sentences(word)`: the left join of `words` and `sentences` on the
word, with falsy rows dropped.  Returns all accumulated rows for the word,
oldest first, or `[]` when the word is unknown. -/
def decache_sentences (word : List Char) (db : Db) : List (List Char) :=
  match findWordId word db.words with
  | none => []
  | some wid => nonEmptyOnly (rowsFor wid db.sents)

/-- `uncache_sentences(word)`: delete all `sentences` rows for the word (the
`words` row itself is kept). -/
def uncache_sentences (word : List Char) (db : Db) : Db :=
  match findWordId word db.words with
  | none => db
  | some wid => { db with sents := removeRows wid db.sents }

/-! ## The rate limiter

`RateLimiter(rpm)` holds an `asyncio.Semaphore(rpm)` and a set of pending
61-second sleeper tasks.  `__aenter__` acquires the semaphore and registers a
sleeper; a sleeper's done-callback removes it and releases the semaphore;
`__aexit__` does nothing.  The cooperative-concurrency behaviour is modelled
as a transition system over the semaphore value and the number of pending
sleepers. -/

structure LimiterState where
  sem : Nat
  sleepers : Nat
deriving DecidableEq, Repr

/-- A freshly constructed `RateLimiter(rpm)`. -/
def LimiterState.init (rpm : Nat) : LimiterState := ⟨rpm, 0⟩

/-- The two events that change limiter state: a task completing
`__aenter__` (enabled only when the semaphore is positive — otherwise the
acquiring task suspends), and a sleeper's 61-second timer elapsing (its
done-callback removes the sleeper and releases the semaphore). -/
inductive LimiterStep : LimiterState → LimiterState → Prop
  | acquire (s : LimiterState) (h : 0 < s.sem) :
      LimiterStep s ⟨s.sem - 1, s.sleepers + 1⟩
  | elapse (s : LimiterState) (h : 0 < s.sleepers) :
      LimiterStep s ⟨s.sem + 1, s.sleepers - 1⟩

/-- States reachable from a freshly constructed limiter of capacity `rpm`. -/
inductive LimiterReachable (rpm : Nat) : LimiterState → Prop
  | init : LimiterReachable rpm (LimiterState.init rpm)
  | step {s t : LimiterState} :
      LimiterReachable rpm s → LimiterStep s t → LimiterReachable rpm t

/-! ## The generation client (`query_gpt`) -/

/-- The `RATE_LIMITS` table of `sentences.py`. -/
def RATE_LIMITS : List (String × Nat) :=
  [("gpt-3.5-turbo", 3500),
   ("gpt-3.5-turbo-0301", 3500),
   ("gpt-3.5-turbo-0613", 3500),
   ("gpt-3.5-turbo-1106", 3500),
   ("gpt-3.5-turbo-16k", 3500),
   ("gpt-3.5-turbo-16k-0613", 3500),
   ("gpt-3.5-turbo-instruct", 3000),
   ("gpt-3.5-turbo-instruct-0914", 3000),
   ("gpt-4", 500),
   ("gpt-4-0314", 500),
   ("gpt-4-0613", 500),
   ("gpt-4-1106-preview", 500),
   ("gpt-4-vision-preview", 80),
   ("tts-1", 50),
   ("tts-1-1106", 50),
   ("tts-1-hd", 3),
   ("tts-1-hd-1106", 3)]

/-- The (misspelled) default `model` argument of `query_gpt`. -/
def defaultModel : String := "gtp-4-1106-preview"

/-- Python exceptions that can escape the modelled functions.  `valueError`
covers `MalformedResponse`/`ClozeRepairFailed` (both are raised as
`ValueError` in the source); `keyError` is raised by `RATE_LIMITS[model]`;
`typeError` is raised by `re.sub` on a `None` meaning. -/
inductive PyError
  | valueError (msg : List Char)
  | keyError (msg : List Char)
  | typeError (msg : List Char)
deriving DecidableEq, Repr

/-- Python whitespace (`\s` / `str.strip`) restricted to the ASCII whitespace
characters. -/
def isPyWS (c : Char) : Bool :=
  c = ' ' || c = Char.ofNat 9 || c = nl || c = Char.ofNat 13 ||
    c = Char.ofNat 12 || c = Char.ofNat 11

/-- `str.strip()`: drop leading and trailing whitespace. -/
def pyStrip (s : List Char) : List Char :=
  ((s.dropWhile isPyWS).reverse.dropWhile isPyWS).reverse

/-- Char-wise case folding, modelling `str.casefold()` (which, on the inputs
manipulated here, lowercases each character without changing the length). -/
def casefold (s : List Char) : List Char := s.map Char.toLower

/-- `hay.index(needle)`: index of the first occurrence of `needle` as a
substring of `hay`, or `none` (a raised `ValueError`) when absent. -/
def indexOfSub (needle : List Char) : List Char → Option Nat
  | [] => if needle = [] then some 0 else none
  | s@(_ :: rest) =>
    if needle.isPrefixOf s then some 0
    else (indexOfSub needle rest).map (fun i => i + 1)

/-- `comma_re.split`: split on the list separators `", "`, `"; "` and the
full-width comma. -/
def splitSeps : List Char → List (List Char)
  | [] => [[]]
  | ',' :: ' ' :: rest => [] :: splitSeps rest
  | ';' :: ' ' :: rest => [] :: splitSeps rest
  | '、' :: rest => [] :: splitSeps rest
  | c :: rest =>
    match splitSeps rest with
    | [] => [[c]]
    | t :: ts => (c :: t) :: ts

/-- Does `cloze_re.search` find a match?  The regex needs a left brace with
some right brace after it. -/
def hasClozeMatch (s : List Char) : Bool :=
  match breakAt lbrace s with
  | none => false
  | some (_, rest) => rest.contains rbrace

/-- One repair step of `encloze`: find the first case-insensitive occurrence
of the alternative `a` in `sentence` and wrap it (the alternative itself, in
its own casing) in cloze delimiters at that position. -/
def enclozeOne (sentence a : List Char) : Option (List Char) :=
  match indexOfSub (casefold a) (casefold sentence) with
  | none => none
  | some i =>
    some (sentence.take i ++ [lbrace] ++ a ++ [rbrace] ++ sentence.drop (i + a.length))

/-- The fold of `encloze`'s `for a in alternatives` loop: the current sentence
together with the `clozed` flag. -/
def enclozeFold : List (List Char) → List Char × Bool → List Char × Bool
  | [], acc => acc
  | a :: alts, acc =>
    match enclozeOne acc.1 a with
    | none => enclozeFold alts acc
    | some s2 => enclozeFold alts (s2, true)

/-- `encloze(sentence, words)` from `query_gpt`: split `words` into
alternatives, wrap each alternative's first case-insensitive occurrence, and
fail (`ClozeRepairFailed`, a `ValueError`) when nothing could be wrapped. -/
def encloze (sentence words : List Char) : Except (List Char) (List Char) :=
  let r := enclozeFold (splitSeps words) (sentence, false)
  if r.2 then .ok r.1
  else .error (str "could not cloze any alternative of " ++ words ++ str " in " ++ sentence)

/-- `html_re.sub("", s)` with `html_re = r"<[^>]+?>"`: remove every tag-like
span from a left angle bracket through the next right angle bracket, provided
at least one character lies between them.  `fuel = s.length` suffices since
every step consumes at least one character. -/
def stripHtmlAux : Nat → List Char → List Char
  | 0, s => s
  | _ + 1, [] => []
  | fuel + 1, c :: rest =>
    if c = '<' then
      match breakAt '>' rest with
      | some (mid, after) =>
        if mid = [] then c :: stripHtmlAux fuel rest
        else stripHtmlAux fuel after
      | none => c :: stripHtmlAux fuel rest
    else c :: stripHtmlAux fuel rest

/-- `strip_html` from `sanitize.py`. -/
def strip_html (s : List Char) : List Char := stripHtmlAux s.length s

/-- A word character for `\w` (ASCII view of the character classes appearing
in the inputs handled here). -/
def isWordChar (c : Char) : Bool := c.isAlphanum || c = '_'

/-- `ruby_re.sub(r"\g<text>", s)` from `sanitize.py`, with
`ruby_re = r"(?P<s>\s?)(?P<text>\w+)(?P<ruby>\[[^\]]+?\])"`: a run of word
characters directly followed by a nonempty bracketed ruby annotation loses the
annotation (and one optional preceding whitespace character).  `fuel`-bounded
left-to-right scan. -/
def stripRubyAux : Nat → List Char → List Char
  | 0, s => s
  | _ + 1, [] => []
  | fuel + 1, c :: rest =>
    let ws : List Char := if isPyWS c then [c] else []
    let s' := if isPyWS c then rest else c :: rest
    let txt := s'.takeWhile isWordChar
    let afterTxt := s'.dropWhile isWordChar
    if txt ≠ [] then
      match afterTxt with
      | '[' :: r2 =>
        match breakAt ']' r2 with
        | some (mid, after) =>
          if mid = [] then
            match ws ++ txt ++ ['['] with
            | [] => []
            | d :: ds => d :: stripRubyAux fuel (ds ++ r2)
          else txt ++ stripRubyAux fuel after
        | none => c :: stripRubyAux fuel rest
      | _ => c :: stripRubyAux fuel rest
    else c :: stripRubyAux fuel rest

/-- `strip_ruby` from `sanitize.py`. -/
def strip_ruby (s : List Char) : List Char := stripRubyAux s.length s

/-- `parenthetical_re.sub("", s)` with `parenthetical_re = r"\s*\([^\)]*\)"`:
remove every parenthesised span together with the whitespace before it. -/
def stripParenAux : Nat → List Char → List Char
  | 0, s => s
  | _ + 1, [] => []
  | fuel + 1, c :: rest =>
    let s' := (c :: rest).dropWhile isPyWS
    match s' with
    | '(' :: r2 =>
      match breakAt ')' r2 with
      | some (_, after) => stripParenAux fuel after
      | none => c :: stripParenAux fuel rest
    | _ => c :: stripParenAux fuel rest

/-- `strip_parenthetical` from `sanitize.py`. -/
def strip_parenthetical (s : List Char) : List Char := stripParenAux s.length s

/-- The cleanup `strip_parenthetical(strip_html(strip_ruby(x)))` applied to
the target word (and to the meaning) before `encloze`. -/
def plainOf (s : List Char) : List Char := strip_parenthetical (strip_html (strip_ruby s))

/-- A cache access performed during a run (used to audit which cache
operations the orchestration code actually issues). -/
inductive CacheOp
  | enc (word : List Char)
  | dec (word : List Char)
  | unc (word : List Char)
deriving DecidableEq, Repr

/-- The world state threaded through `query_gpt`: the sentence cache, the
queue of upcoming remote completion texts, counters for remote calls and
rate-limiter slot acquisitions, and the log of cache accesses. -/
structure W where
  db : Db
  responses : List (List Char)
  remoteCalls : Nat
  limiterAcq : Nat
  ops : List CacheOp
deriving DecidableEq, Repr

/-- A fresh world: empty cache and no queued responses. -/
def W.fresh : W := ⟨Db.empty, [], 0, 0, []⟩

/-- Read the cache, logging the access. -/
def W.decache (word : List Char) (w : W) : List (List Char) × W :=
  (decache_sentences word w.db, { w with ops := w.ops ++ [CacheOp.dec word] })

/-- Write to the cache, logging the access. -/
def W.encache (word : List Char) (sentences : List (List Char)) (w : W) : W :=
  { w with db := encache_sentences word sentences w.db, ops := w.ops ++ [CacheOp.enc word] }

/-- Parsing of the stripped completion text by
`re.match(r"\A\s*(?P<sentence>.+?)\n+(?P<translation>.+?)\s*\Z", response)`:
on an already-stripped response the match succeeds exactly when the text is a
nonempty newline-free sentence line, one or more newlines, and a nonempty
newline-free translation line. -/
def parsePair (r : List Char) : Option (List Char × List Char) :=
  let sentence := r.takeWhile (fun c => c ≠ nl)
  let rest := r.dropWhile (fun c => c ≠ nl)
  let translation := rest.dropWhile (fun c => c = nl)
  if sentence = [] ∨ rest = [] ∨ translation = [] ∨ translation.contains nl then none
  else some (sentence, translation)

/-- `query_gpt(system_prompt, word, meaning, model)`.

1. a nonempty cache hit for `word` returns immediately;
2. otherwise `get_rate_limiter(model)` constructs the limiter from
   `RATE_LIMITS[model]`, raising `KeyError` for an unknown model;
3. a rate-limiter slot is acquired and the chat completion requested (the
   stripped response text is taken from the world's queue);
4. the response is split into a sentence and a translation line
   (`ValueError` when impossible);
5. a sentence without cloze markers is repaired with `encloze` against the
   cleaned word (`ValueError` when repair fails);
6. a translation without cloze markers is repaired against the cleaned
   meaning: a `None` meaning makes the cleanup's `re.sub` raise `TypeError`,
   and a failed repair is logged and ignored;
7. the two-line string is encached for `word` and returned. -/
def query_gpt (_system_prompt : List Char) (word : List Char)
    (meaning : Option (List Char)) (model : String)
    (w : W) : Except PyError (List (List Char)) × W :=
  let r := W.decache word w
  let cached := r.1
  let w := r.2
  if cached ≠ [] then (.ok cached, w)
  else
    match RATE_LIMITS.lookup model with
    | none => (.error (.keyError model.data), w)
    | some _ =>
      let w := { w with limiterAcq := w.limiterAcq + 1 }
      let response := pyStrip (w.responses.headD [])
      let w := { w with responses := w.responses.tail, remoteCalls := w.remoteCalls + 1 }
      match parsePair response with
      | none => (.error (.valueError (str "Could not parse GPT response " ++ response)), w)
      | some (s0, t0) =>
        let sentence? :=
          if hasClozeMatch s0 then Except.ok s0
          else encloze s0 (plainOf word)
        match sentence? with
        | .error e => (.error (.valueError e), w)
        | .ok sentence =>
          let translation? :=
            if hasClozeMatch t0 then Except.ok t0
            else
              match meaning with
              | none => Except.error (str "expected string or bytes-like object")
              | some m =>
                match encloze t0 (plainOf m) with
                | .ok t => Except.ok t
                | .error _ => Except.ok t0
          match translation? with
          | .error e => (.error (.typeError e), w)
          | .ok translation =>
            let sentences := [sentence ++ [nl] ++ translation]
            let w := W.encache word sentences w
            (.ok sentences, w)

/-- `", ".join(errors)`. -/
def joinSep (sep : List Char) : List (List Char) → List Char
  | [] => []
  | [x] => x
  | x :: xs => x ++ sep ++ joinSep sep xs

/-- The message of the `ValueError` raised after all retries fail. -/
def exhaustedMsg (word : List Char) (errors : List (List Char)) : List Char :=
  str "repeatedly queried GPT for " ++ word ++
    str " but got no good responses:" ++ joinSep (str ", ") errors

/-- `pair.split(chr(10))`. -/
def splitOnNl : List Char → List (List Char)
  | [] => [[]]
  | c :: rest =>
    if c = nl then [] :: splitOnNl rest
    else
      match splitOnNl rest with
      | [] => [[c]]
      | t :: ts => (c :: t) :: ts

/-- `sentence, translation = map(Cloze.from_str, pair.split(chr(10)))`:
unpacking raises an (uncaught) `ValueError` unless the split has exactly two
parts. -/
def parseExample (pair : List Char) : Except PyError (Cloze × Cloze) :=
  match splitOnNl pair with
  | [a, b] => .ok (Cloze.from_str a, Cloze.from_str b)
  | _ => .error (.valueError (str "values to unpack"))

/-- The `for pair in sentences` loop building the example list; the first
unpacking failure escapes. -/
def mapExamples : List (List Char) → Except PyError (List (Cloze × Cloze))
  | [] => .ok []
  | p :: ps =>
    match parseExample p with
    | .error e => .error e
    | .ok ex =>
      match mapExamples ps with
      | .error e => .error e
      | .ok exs => .ok (ex :: exs)

/-- The `for _ in range(3)` retry loop of `example_sentences`, parametrised by
the underlying query (the source hard-wires `query_gpt`, see
`example_sentences`).  A `ValueError` from the query is recorded and the
attempt retried; any other exception propagates; on success the returned rows
are parsed into cloze pairs.  The accumulated `errors` list is returned
alongside the result. -/
def exampleLoop {σ : Type} (word : List Char)
    (query : σ → Except PyError (List (List Char)) × σ) :
    Nat → List (List Char) → σ → Except PyError (List (Cloze × Cloze)) × List (List Char) × σ
  | 0, errors, st => (.error (.valueError (exhaustedMsg word errors)), errors, st)
  | n + 1, errors, st =>
    match query st with
    | (.error (.valueError m), st2) => exampleLoop word query n (errors ++ [m]) st2
    | (.error e, st2) => (.error e, errors, st2)
    | (.ok sentences, st2) => (mapExamples sentences, errors, st2)

/-- `example_sentences(prompt, word, meaning, model)`: three attempts of
`query_gpt`.  Note that the `model` parameter is accepted but not forwarded —
the inner call `query_gpt(prompt, word, meaning)` leaves `query_gpt` running
with its own (misspelled) default model. -/
def example_sentences (prompt word : List Char) (meaning : Option (List Char))
    (_model : String) (w : W) :
    Except PyError (List (Cloze × Cloze)) × List (List Char) × W :=
  exampleLoop word (query_gpt prompt word meaning defaultModel) 3 [] w

/-! ## The task fan-out driver (`__main__.py`, `make_notes`) -/

/-- The fields of a note model relevant to the driver. -/
structure AnkiModel where
  id : Nat
  name : List Char
  fieldNames : List (List Char)
deriving DecidableEq, Repr

/-- A note of the source collection: its model id, its tags, and its
field-name-to-value mapping. -/
structure AnkiNote where
  modelId : Nat
  tags : List (List Char)
  fieldVals : List (List Char × List Char)
deriving DecidableEq, Repr

/-- The command-line arguments consulted by `make_notes`. -/
structure DriverArgs where
  model : List Char
  word_field : List Char
  meaning_field : List Char
  sentence_field : List Char
  translation_field : List Char
  tts_field : List Char
  include_tags : Option (List (List Char))
  exclude_tags : List (List Char)
deriving Repr

/-- The model-selection predicate: name matches case-insensitively and all
five configured fields are present. -/
def modelMatches (args : DriverArgs) (m : AnkiModel) : Bool :=
  casefold m.name = casefold args.model &&
    m.fieldNames.contains args.word_field &&
    m.fieldNames.contains args.meaning_field &&
    m.fieldNames.contains args.sentence_field &&
    m.fieldNames.contains args.translation_field &&
    m.fieldNames.contains args.tts_field

/-- `next(iter(filter(predicate, collection.models)))`: the first matching
model, or `none` (a `StopIteration` making the process exit). -/
def findSourceModel (args : DriverArgs) : List AnkiModel → Option AnkiModel
  | [] => none
  | m :: ms => if modelMatches args m then some m else findSourceModel args ms

/-- Do two tag lists intersect (`whitelist & tags`)? -/
def tagsMeet (a b : List (List Char)) : Bool :=
  a.any (fun t => b.contains t)

/-- The note filter of `make_notes`: same model id, a whitelist tag when a
whitelist was given, and no blacklist tag. -/
def noteSelected (args : DriverArgs) (sourceModelId : Nat) (n : AnkiNote) : Bool :=
  n.modelId = sourceModelId &&
    (match args.include_tags with
     | none => true
     | some whitelist => tagsMeet whitelist n.tags) &&
    !tagsMeet args.exclude_tags n.tags

/-- The default `--word-regex` / `--meaning-regex`
`r"\A\s*(?P<word>.+?)\s*\Z"` applied with `re.match`: the match succeeds
exactly when stripping whitespace leaves a nonempty newline-free core, which
is the captured group. -/
def extractDefault (s : List Char) : Option (List Char) :=
  let core := pyStrip s
  if core = [] ∨ core.contains nl then none else some core

/-- One generation task: the word/meaning pair handed to
`make_sentence_note`. -/
structure GenTask where
  word : List Char
  meaning : List Char
deriving DecidableEq, Repr

/-- The task-construction loop of `make_notes` over a list of notes: selected
notes have their word and meaning fields stripped of html and matched against
the default regexes (a failed match calls `sys.exit(1)`, modelled as `none`),
and yield one `GenTask` each. -/
def collectTasks (args : DriverArgs) (sourceModelId : Nat) :
    List AnkiNote → Option (List GenTask)
  | [] => some []
  | n :: rest =>
    if noteSelected args sourceModelId n then
      match extractDefault (strip_html ((n.fieldVals.lookup args.word_field).getD [])) with
      | none => none
      | some word =>
        match extractDefault (strip_html ((n.fieldVals.lookup args.meaning_field).getD [])) with
        | none => none
        | some meaning =>
          match collectTasks args sourceModelId rest with
          | none => none
          | some ts => some (⟨word, meaning⟩ :: ts)
    else collectTasks args sourceModelId rest

/-- `make_notes` up to the point where the tasks are spawned: the source
model is located (exiting when absent) and one task is built per selected
note of `collection.notes[:1]` — note the slice: only the first note of the
collection is ever considered. -/
def make_notes_tasks (args : DriverArgs) (models : List AnkiModel)
    (notes : List AnkiNote) : Option (List GenTask) :=
  match findSourceModel args models with
  | none => none
  | some sm => collectTasks args sm.id (notes.take 1)

/-! ## Auxiliary notions used only in the statements and proofs -/

/-- The opening emphasis tag added by `Cloze.fill`. -/
def bTag : List Char := ['<', 'b', '>']

/-- The closing emphasis tag added by `Cloze.fill`. -/
def eTag : List Char := ['<', '/', 'b', '>']

/-- Remove every occurrence of the two emphasis tags, scanning left to right
(`fuel`-bounded; each step consumes at least one character). -/
def stripTags : Nat → List Char → List Char
  | 0, s => s
  | _ + 1, [] => []
  | fuel + 1, c :: rest =>
    if bTag.isPrefixOf (c :: rest) then stripTags fuel ((c :: rest).drop 3)
    else if eTag.isPrefixOf (c :: rest) then stripTags fuel ((c :: rest).drop 4)
    else c :: stripTags fuel rest

/-- Remove the emphasis markup added by `Cloze.fill`. -/
def stripB (s : List Char) : List Char := stripTags s.length s

/-- Interleave context fragments with emphasised deletions:
`c0 ++ <b>d0</b> ++ c1 ++ ... ++ cN`. -/
def interleaveWrap : List (List Char) → List (List Char) → List Char
  | [], _ => []
  | c :: _, [] => c
  | c :: cs, d :: ds => c ++ wrapB d ++ interleaveWrap cs ds

/-- Interleave context fragments with bare deletions:
`c0 ++ d0 ++ c1 ++ ... ++ cN` (the original text with the matched delimiter
characters removed). -/
def interleaveCat : List (List Char) → List (List Char) → List Char
  | [], _ => []
  | c :: _, [] => c
  | c :: cs, d :: ds => c ++ d ++ interleaveCat cs ds

/-- Interleave context fragments with delimited deletions: the original raw
text `c0 ++ \x7bd0\x7d ++ c1 ++ ... ++ cN`. -/
def interleaveBraced : List (List Char) → List (List Char) → List Char
  | [], _ => []
  | c :: _, [] => c
  | c :: cs, d :: ds => c ++ lbrace :: (d ++ rbrace :: interleaveBraced cs ds)

/-- The flattened, truncated interleaving computed by `Cloze.fill`, with the
filler for the `k`-th used slot taken cyclically from `w` starting at
position `i`. -/
def interleaveGet (w : List (List Char)) : Nat → List (List Char) → List Char
  | _, [] => []
  | i, c :: cs =>
    match cs with
    | [] => c
    | _ :: _ => c ++ w.getD (i % w.length) [] ++ interleaveGet w (i + 1) cs

/-- A call-counting stub for the underlying query of the retry loop: attempt
`n` returns `f n`. -/
def countingStub (f : Nat → Except PyError (List (List Char))) :
    Nat → Except PyError (List (List Char)) × Nat :=
  fun n => (f n, n + 1)

/-- Stub outcomes: two malformed responses, then a valid two-line one. -/
def fC4 : Nat → Except PyError (List (List Char)) :=
  fun n =>
    if n = 0 then .error (.valueError (str "E0"))
    else if n = 1 then .error (.valueError (str "E1"))
    else .ok [str "a\nb"]

/-- A stub query that fails with a `ValueError` after writing a row for the
word into the cache (the situation the invalidation claim is about). -/
def badStub : W → Except PyError (List (List Char)) × W :=
  fun w => (.error (.valueError (str "malformed")), W.encache (str "w") [str "bad row"] w)

/-- Driver arguments with all defaults. -/
def c10Args : DriverArgs :=
  ⟨str "Basic", str "Front", str "Back", str "Sentence", str "SentenceTranslation",
    str "Voice", none, []⟩

/-- A note model exposing the five default fields. -/
def c10Model : AnkiModel :=
  ⟨7, str "Basic",
    [str "Front", str "Back", str "Sentence", str "SentenceTranslation", str "Voice"]⟩

/-- First note of the two-note collection. -/
def c10Note1 : AnkiNote :=
  ⟨7, [], [(str "Front", str "w1"), (str "Back", str "m1")]⟩

/-- Second note of the two-note collection. -/
def c10Note2 : AnkiNote :=
  ⟨7, [], [(str "Front", str "w2"), (str "Back", str "m2")]⟩



/-! # Theorems -/

/-- Semaphore accounting: in every reachable limiter state the semaphore
value and the pending sleeper count sum to the capacity. -/
theorem limiter_sum_inv {rpm : Nat} {s : LimiterState}
    (h : LimiterReachable rpm s) : s.sem + s.sleepers = rpm := by
  induction h with
  | init => simp [LimiterState.init]
  | step _ hs ih =>
    cases hs with
    | acquire h1 =>
      show _ - 1 + (_ + 1) = rpm
      omega
    | elapse h1 =>
      show _ + 1 + (_ - 1) = rpm
      omega

/-- C1: a rate limiter of capacity `C` never has more than `C` pending
cool-down timers: in every reachable state `sem + sleepers = C`, hence
`sleepers ≤ C`; when all `C` sleepers are pending the semaphore is exhausted,
so a further acquisition cannot step (it blocks), and the only possible step
is a timer elapsing, which frees a slot (`0 < sem` afterwards). -/
theorem rate_limiter_capacity_invariant (rpm : Nat) (s : LimiterState)
    (h : LimiterReachable rpm s) :
    s.sem + s.sleepers = rpm ∧ s.sleepers ≤ rpm ∧
      (s.sleepers = rpm → s.sem = 0 ∧
        ∀ t, LimiterStep s t → 0 < t.sem ∧ t.sleepers < rpm) := by
  have hsum := limiter_sum_inv h
  refine ⟨hsum, by omega, fun hfull => ⟨by omega, fun t ht => ?_⟩⟩
  cases ht with
  | acquire h1 => omega
  | elapse h1 =>
    refine ⟨Nat.succ_pos _, ?_⟩
    show s.sleepers - 1 < rpm
    omega

/-- Witness for C1 at capacity 2, in the state reached after two
acquisitions. -/
theorem rate_limiter_capacity_invariant_witness :
    (⟨0, 2⟩ : LimiterState).sem + (⟨0, 2⟩ : LimiterState).sleepers = 2 ∧
      (⟨0, 2⟩ : LimiterState).sleepers ≤ 2 ∧
      ((⟨0, 2⟩ : LimiterState).sleepers = 2 → (⟨0, 2⟩ : LimiterState).sem = 0 ∧
        ∀ t, LimiterStep ⟨0, 2⟩ t → 0 < t.sem ∧ t.sleepers < 2) := by
  have h0 : LimiterReachable 2 (LimiterState.init 2) := LimiterReachable.init
  have h1 : LimiterReachable 2 ⟨1, 1⟩ :=
    h0.step (LimiterStep.acquire (LimiterState.init 2) (by decide))
  have h2 : LimiterReachable 2 ⟨0, 2⟩ :=
    h1.step (LimiterStep.acquire ⟨1, 1⟩ (by decide))
  exact rate_limiter_capacity_invariant 2 ⟨0, 2⟩ h2

/-- C10: the task fan-out driver iterates over `collection.notes[:1]`, so even
when two notes match the selected model and the tag filters, only one
generation task is constructed (the code slices the collection to its first
note; the claim — and the rest of the driver, e.g. its progress total — expect
one task per matching note). -/
theorem make_notes_first_note_only :
    make_notes_tasks c10Args [c10Model] [c10Note1, c10Note2] =
        some [⟨str "w1", str "m1"⟩] ∧
      (([c10Note1, c10Note2] : List AnkiNote).filter
        (noteSelected c10Args c10Model.id)).length = 2 := by
  constructor
  · rfl
  · rfl

/-- C7 (counterexample): the masked view does not contain exactly one
placeholder occurrence regardless of the number of deletions — with two
deletions it contains two, and with zero deletions it contains none. -/
theorem masked_view_placeholder_counterexample :
    ¬ countOccs (str "...") (Cloze.from_str (str "a\x7bx\x7db\x7by\x7dc")).cloze = 1 ∧
      ¬ countOccs (str "...") (Cloze.from_str (str "ab")).cloze = 1 := by
  constructor
  · decide
  · decide

/-- C2 (counterexample): the cache round trip fails for an empty raw string —
`put` stores it but `get` filters falsy rows, so the row is not returned. -/
theorem cache_roundtrip_empty_string_counterexample :
    decache_sentences (str "w") (encache_sentences (str "w") [str ""] Db.empty) = [] ∧
      [str ""] ≠ ([] : List (List Char)) := by
  constructor
  · rfl
  · decide

/-- C2 (amended): the cache round trip holds for non-empty raw strings.
Starting from a fresh cache, `put(word, [s1, s2])` then `get(word)` returns
`[s1, s2]` in insertion order; a further `put(word, [s3])` appends, so `get`
returns `[s1, s2, s3]`; and `invalidate(word)` then `get(word)` returns `[]`.
(The restriction to non-empty strings is forced by the read path's falsy-row
filter, see the counterexample.) -/
theorem cache_roundtrip_appends (word s1 s2 s3 : List Char)
    (h1 : s1 ≠ []) (h2 : s2 ≠ []) (h3 : s3 ≠ []) :
    decache_sentences word (encache_sentences word [s1, s2] Db.empty) = [s1, s2] ∧
      decache_sentences word
        (encache_sentences word [s3] (encache_sentences word [s1, s2] Db.empty)) =
        [s1, s2, s3] ∧
      decache_sentences word
        (uncache_sentences word
          (encache_sentences word [s3] (encache_sentences word [s1, s2] Db.empty))) =
        [] := by
  simp [encache_sentences, decache_sentences, uncache_sentences, Db.empty,
    findWordId, rowsFor, nonEmptyOnly, removeRows, h1, h2, h3]

/-- Witness for the amended C2 round trip at concrete inputs. -/
theorem cache_roundtrip_appends_witness :
    decache_sentences (str "w")
        (encache_sentences (str "w") [str "a", str "b"] Db.empty) =
      [str "a", str "b"] ∧
      decache_sentences (str "w")
        (encache_sentences (str "w") [str "c"]
          (encache_sentences (str "w") [str "a", str "b"] Db.empty)) =
        [str "a", str "b", str "c"] ∧
      decache_sentences (str "w")
        (uncache_sentences (str "w")
          (encache_sentences (str "w") [str "c"]
            (encache_sentences (str "w") [str "a", str "b"] Db.empty))) = [] :=
  cache_roundtrip_appends (str "w") (str "a") (str "b") (str "c")
    (by decide) (by decide) (by decide)

/-- C3: when the cache holds a non-empty row list for the word, `query_gpt`
returns exactly those rows at once, with no remote call, no rate-limiter
acquisition, and the cache unchanged (the world is touched only by the
logged cache read). -/
theorem query_gpt_cache_hit_frame (p word : List Char) (meaning : Option (List Char))
    (model : String) (w : W) (h : decache_sentences word w.db ≠ []) :
    query_gpt p word meaning model w =
      (.ok (decache_sentences word w.db),
        { w with ops := w.ops ++ [CacheOp.dec word] }) := by
  simp [query_gpt, W.decache, h]

/-- Witness for C3: a world whose cache holds one row for the word. -/
theorem query_gpt_cache_hit_frame_witness :
    query_gpt (str "p") (str "w") none "gpt-4"
        { W.fresh with db := encache_sentences (str "w") [str "a"] Db.empty } =
      (.ok (decache_sentences (str "w")
          ({ W.fresh with db := encache_sentences (str "w") [str "a"] Db.empty } : W).db),
        { ({ W.fresh with db := encache_sentences (str "w") [str "a"] Db.empty } : W) with
            ops := ({ W.fresh with db := encache_sentences (str "w") [str "a"] Db.empty } : W).ops
              ++ [CacheOp.dec (str "w")] }) :=
  query_gpt_cache_hit_frame (str "p") (str "w") none "gpt-4"
    { W.fresh with db := encache_sentences (str "w") [str "a"] Db.empty } (by decide)

/-- The misspelled default model name is not a key of `RATE_LIMITS`. -/
theorem lookup_defaultModel : RATE_LIMITS.lookup defaultModel = none := by decide

/-- C6: for a word with no (non-empty) cached rows, `example_sentences` fails
on its first attempt with an uncaught `KeyError`, before any remote call or
limiter acquisition: the `model` argument is not forwarded (it is universally
quantified here and absent from the result), `query_gpt` runs with its
misspelled default `"gtp-4-1106-preview"`, which is not a `RATE_LIMITS` key,
and the retry loop catches only `ValueError`. -/
theorem example_sentences_default_model_keyerror (p word : List Char)
    (meaning : Option (List Char)) (model : String) (w : W)
    (h : decache_sentences word w.db = []) :
    example_sentences p word meaning model w =
      (.error (.keyError (str "gtp-4-1106-preview")), [],
        { w with ops := w.ops ++ [CacheOp.dec word] }) ∧
      RATE_LIMITS.lookup defaultModel = none := by
  refine ⟨?_, lookup_defaultModel⟩
  show exampleLoop word (query_gpt p word meaning defaultModel) 3 [] w = _
  rw [show (3 : Nat) = 2 + 1 from rfl]
  have hq : query_gpt p word meaning defaultModel w =
      (.error (.keyError (str "gtp-4-1106-preview")),
        { w with ops := w.ops ++ [CacheOp.dec word] }) := by
    simp [query_gpt, W.decache, h, str]
    rw [lookup_defaultModel]
    rfl
  simp [exampleLoop, hq]

/-- Witness for C6 on a fresh world. -/
theorem example_sentences_default_model_keyerror_witness :
    example_sentences (str "p") (str "w") none "gpt-4-1106-preview" W.fresh =
      (.error (.keyError (str "gtp-4-1106-preview")), [],
        { W.fresh with ops := W.fresh.ops ++ [CacheOp.dec (str "w")] }) ∧
      RATE_LIMITS.lookup defaultModel = none :=
  example_sentences_default_model_keyerror (str "p") (str "w") none
    "gpt-4-1106-preview" W.fresh (by decide)

/-- C5 (amended): the retry loop performs no cache invalidation on a failed
attempt — it only records the error — and none is needed for the stated
purpose, because a failed `query_gpt` attempt never writes to the cache in
the first place: every failure (unknown model, malformed response, failed
sentence repair, `None` meaning) occurs before the encache step, so the world
leaves an error with the cache unchanged and the logged single read as the
only cache access. -/
theorem query_gpt_failure_writes_nothing (p word : List Char)
    (meaning : Option (List Char)) (model : String) (w : W) (e : PyError)
    (h : (query_gpt p word meaning model w).1 = .error e) :
    (query_gpt p word meaning model w).2.db = w.db ∧
      (query_gpt p word meaning model w).2.ops = w.ops ++ [CacheOp.dec word] := by
  revert h
  simp only [query_gpt, W.decache]
  split
  · intro h
    simp at h
  · split
    · intro _
      exact ⟨rfl, rfl⟩
    · split
      · intro _
        exact ⟨rfl, rfl⟩
      · split
        · intro _
          exact ⟨rfl, rfl⟩
        · split
          · intro _
            exact ⟨rfl, rfl⟩
          · intro h
            simp at h

/-- Witness for the amended C5: the failing run on a fresh world (the
default-model `KeyError`) leaves the cache untouched. -/
theorem query_gpt_failure_writes_nothing_witness :
    (query_gpt (str "p") (str "w") none defaultModel W.fresh).2.db = W.fresh.db ∧
      (query_gpt (str "p") (str "w") none defaultModel W.fresh).2.ops =
        W.fresh.ops ++ [CacheOp.dec (str "w")] :=
  query_gpt_failure_writes_nothing (str "p") (str "w") none defaultModel W.fresh
    (.keyError (str "gtp-4-1106-preview")) (by rfl)

/-- C5 (counterexample): run the retry loop against a query that fails with a
`ValueError` after writing a row for the word.  The claim says the
orchestrator invalidates the just-written entry before retrying; instead all
three written rows are still served by `get` afterwards, and the op log shows
three writes and not a single invalidation. -/
theorem retry_no_invalidation_counterexample :
    decache_sentences (str "w") (exampleLoop (str "w") badStub 3 [] W.fresh).2.2.db =
        [str "bad row", str "bad row", str "bad row"] ∧
      (exampleLoop (str "w") badStub 3 [] W.fresh).2.2.ops =
        [CacheOp.enc (str "w"), CacheOp.enc (str "w"), CacheOp.enc (str "w")] := by
  constructor
  · rfl
  · rfl

/-- The retry loop calls its underlying query at most once per remaining
attempt: with a call-counting stub the counter grows by at most `n`. -/
theorem loop_count_le (f : Nat → Except PyError (List (List Char)))
    (word : List Char) : ∀ (n : Nat) (errors : List (List Char)) (st : Nat),
    (exampleLoop word (countingStub f) n errors st).2.2 ≤ st + n := by
  intro n
  induction n with
  | zero =>
    intro errors st
    simp [exampleLoop]
  | succ n ih =>
    intro errors st
    simp only [exampleLoop, countingStub]
    cases hf : f st with
    | ok v => simp [hf]
    | error e =>
      cases e with
      | valueError m =>
        simp only [hf]
        exact le_trans (ih (errors ++ [m]) (st + 1)) (by omega)
      | keyError m => simp [hf]
      | typeError m => simp [hf]

/-- C4: the retry loop of `example_sentences` attempts the underlying query
at most 3 times; when all three attempts fail with a parse/repair
`ValueError` it raises the exhaustion `ValueError` carrying all three
accumulated messages; and when the third attempt succeeds it returns the
parsed pairs with exactly the two earlier errors recorded. -/
theorem example_sentences_retry_bound (word : List Char)
    (f : Nat → Except PyError (List (List Char))) (e0 e1 e2 : List Char)
    (good : List (List Char)) (pairs : List (Cloze × Cloze)) :
    (exampleLoop word (countingStub f) 3 [] 0).2.2 ≤ 3 ∧
      (f 0 = .error (.valueError e0) → f 1 = .error (.valueError e1) →
        f 2 = .error (.valueError e2) →
        exampleLoop word (countingStub f) 3 [] 0 =
          (.error (.valueError (exhaustedMsg word [e0, e1, e2])), [e0, e1, e2], 3)) ∧
      (f 0 = .error (.valueError e0) → f 1 = .error (.valueError e1) →
        f 2 = .ok good → mapExamples good = .ok pairs →
        exampleLoop word (countingStub f) 3 [] 0 = (.ok pairs, [e0, e1], 3)) := by
  refine ⟨by simpa using loop_count_le f word 3 [] 0, ?_, ?_⟩
  · intro h0 h1 h2
    show exampleLoop word (countingStub f) (0 + 1 + 1 + 1) [] 0 = _
    simp only [exampleLoop, countingStub, h0, h1, h2]
    rfl
  · intro h0 h1 h2 hm
    show exampleLoop word (countingStub f) (0 + 1 + 1 + 1) [] 0 = _
    simp only [exampleLoop, countingStub, h0, h1, h2, hm]
    rfl

/-- Witness for C4 with the concrete twice-malformed-then-valid stub. -/
theorem example_sentences_retry_bound_witness :
    (exampleLoop (str "w") (countingStub fC4) 3 [] 0).2.2 ≤ 3 ∧
      exampleLoop (str "w") (countingStub fC4) 3 [] 0 =
        (.ok [(Cloze.from_str (str "a"), Cloze.from_str (str "b"))],
          [str "E0", str "E1"], 3) := by
  have h := example_sentences_retry_bound (str "w") fC4 (str "E0") (str "E1")
    (str "E2") [str "a\nb"] [(Cloze.from_str (str "a"), Cloze.from_str (str "b"))]
  exact ⟨h.1, h.2.2 (by rfl) (by rfl) (by rfl) (by rfl)⟩

/-- Once the `clozed` flag is set it stays set through the rest of the fold. -/
theorem enclozeFold_true : ∀ (alts : List (List Char)) (s : List Char),
    (enclozeFold alts (s, true)).2 = true := by
  intro alts
  induction alts with
  | nil => intro s; rfl
  | cons a alts ih =>
    intro s
    simp only [enclozeFold]
    cases h : enclozeOne s a with
    | none => simpa using ih s
    | some s2 => simpa using ih s2

/-- The repair fold ends with the flag unset exactly when no alternative was
ever wrapped — and since a failing step leaves the sentence unchanged, that
is exactly when every alternative fails on the original sentence. -/
theorem enclozeFold_false_iff : ∀ (alts : List (List Char)) (s : List Char),
    (enclozeFold alts (s, false)).2 = false ↔ ∀ a ∈ alts, enclozeOne s a = none := by
  intro alts
  induction alts with
  | nil => intro s; simp [enclozeFold]
  | cons a alts ih =>
    intro s
    simp only [enclozeFold]
    cases h : enclozeOne s a with
    | none => simp [h, ih s]
    | some s2 => simp [h, enclozeFold_true]

/-- A repair step fails exactly when the alternative has no case-insensitive
occurrence in the sentence. -/
theorem enclozeOne_none_iff (s a : List Char) :
    enclozeOne s a = none ↔ indexOfSub (casefold a) (casefold s) = none := by
  unfold enclozeOne
  cases h : indexOfSub (casefold a) (casefold s) with
  | none => simp [h]
  | some i => simp [h]

/-- C8: `encloze` splits the target word on the list separators and fails
exactly when no alternative occurs case-insensitively in the sentence; on the
spec's repair scenario it wraps the literal occurrence of "psy", the full
`query_gpt` call returns the repaired two-line row, and parsing it yields a
Cloze with deletion "psy". -/
theorem encloze_repair_spec :
    (∀ s words, (∃ e, encloze s words = .error e) ↔
        ∀ a ∈ splitSeps words, indexOfSub (casefold a) (casefold s) = none) ∧
      encloze (str "Kocham [nothing-marked] psy.") (str "psy") =
        .ok (str "Kocham [nothing-marked] \x7bpsy\x7d.") ∧
      (query_gpt (str "p") (str "psy") (some (str "koty")) "gpt-4-1106-preview"
          { W.fresh with
              responses := [str "Kocham [nothing-marked] psy.\nI love dogs."] }).1 =
        .ok [str "Kocham [nothing-marked] \x7bpsy\x7d.\nI love dogs."] ∧
      (Cloze.from_str (str "Kocham [nothing-marked] \x7bpsy\x7d.")).deletions =
        [str "psy"] := by
  refine ⟨?_, by rfl, by rfl, by rfl⟩
  have key : ∀ s words, (∃ e, encloze s words = .error e) ↔
      (enclozeFold (splitSeps words) (s, false)).2 = false := by
    intro s words
    unfold encloze
    cases hr : (enclozeFold (splitSeps words) (s, false)).2 with
    | true => simp [hr]
    | false => simp [hr]
  intro s words
  rw [key s words, enclozeFold_false_iff]
  simp only [enclozeOne_none_iff]

/-- Witness instantiating the failure side of C8's characterisation at a
concrete sentence containing none of the alternatives. -/
theorem encloze_repair_spec_witness :
    ∃ e, encloze (str "I love dogs.") (str "koty") = .error e :=
  (encloze_repair_spec.1 (str "I love dogs.") (str "koty")).mpr (by decide)

/-- Cycling a one-element filler list pairs every context fragment with that
single filler. -/
theorem zipCycle_single (w : List Char) : ∀ (i : Nat) (ctx : List (List Char)),
    zipCycleAux [w] i ctx = ctx.map (fun c => (c, w)) := by
  intro i ctx
  induction ctx generalizing i with
  | nil => rfl
  | cons c cs ih => simp [zipCycleAux, Nat.mod_one, ih]

/-- Flattening the truncated interleave of the fragments with one repeated
filler yields the `seplist` of the fragments. -/
theorem flat_take_seplist (w : List Char) : ∀ (ctx : List (List Char)),
    ((flatPairs (ctx.map (fun c => (c, w)))).take (2 * ctx.length - 1)).flatten =
      seplist w ctx := by
  intro ctx
  induction ctx with
  | nil => rfl
  | cons c cs ih =>
    cases cs with
    | nil => simp [flatPairs, seplist]
    | cons c2 cs2 =>
      have harith : 2 * ((c :: c2 :: cs2).length) - 1 =
          (2 * ((c2 :: cs2).length) - 1) + 1 + 1 := by
        simp [List.length_cons]
        omega
      rw [List.map_cons, flatPairs, harith]
      simp only [List.take_succ_cons, List.flatten_cons]
      rw [ih]
      simp [seplist, List.append_assoc]

/-- The parse always produces one more context fragment than deletions. -/
theorem fromStrAux_len : ∀ (fuel : Nat) (s : List Char),
    (fromStrAux fuel s).1.length = (fromStrAux fuel s).2.length + 1 := by
  intro fuel
  induction fuel with
  | zero => intro s; rfl
  | succ fuel ih =>
    intro s
    cases h1 : breakAt lbrace s with
    | none => simp [fromStrAux, h1]
    | some pr =>
      obtain ⟨pre, rest⟩ := pr
      cases h2 : breakAt rbrace rest with
      | none => simp [fromStrAux, h1, h2]
      | some dr =>
        obtain ⟨del, rest2⟩ := dr
        simp [fromStrAux, h1, h2, ih rest2]

/-- The masked view of any cloze is its context fragments interleaved with
one wrapped placeholder per interior position. -/
theorem fill_nil_seplist (ctx dels : List (List Char)) :
    Cloze.cloze ⟨ctx, dels⟩ = seplist (wrapB (str "...")) ctx := by
  unfold Cloze.cloze Cloze.fill
  show (List.take (2 * ctx.length - 1)
      (flatPairs (zipCycleAux [wrapB (str "...")] 0 ctx))).flatten = _
  rw [zipCycle_single]
  exact flat_take_seplist _ ctx

/-- C7 (amended): the masked view of a parsed cloze contains one placeholder
occurrence per deletion, not a single collapsed one: it equals the context
fragments interleaved with `"<b>...</b>"` at each of the N interior
positions (parsing yields N+1 fragments for N deletions), so N placeholders
appear for N deletions and none when N = 0. -/
theorem masked_view_placeholder_per_deletion (s : List Char) :
    (Cloze.from_str s).cloze = seplist (wrapB (str "...")) (Cloze.from_str s).context ∧
      (Cloze.from_str s).context.length = (Cloze.from_str s).deletions.length + 1 := by
  constructor
  · show Cloze.cloze ⟨(fromStrAux s.length s).1, (fromStrAux s.length s).2⟩ = _
    rw [fill_nil_seplist]
    rfl
  · exact fromStrAux_len s.length s

/-- `breakAt` specification: a successful split reassembles to the input. -/
theorem breakAt_eq (c : Char) : ∀ (s a b : List Char),
    breakAt c s = some (a, b) → s = a ++ c :: b := by
  intro s
  induction s with
  | nil => intro a b h; simp [breakAt] at h
  | cons x xs ih =>
    intro a b h
    by_cases hx : x = c
    · subst hx
      simp [breakAt] at h
      obtain ⟨ha, hb⟩ := h
      subst ha
      subst hb
      rfl
    · simp [breakAt, hx] at h
      cases hbk : breakAt c xs with
      | none => simp [hbk] at h
      | some ab =>
        obtain ⟨a', b'⟩ := ab
        simp [hbk] at h
        obtain ⟨ha, hb⟩ := h
        subst ha
        subst hb
        simp [ih a' b' hbk]

/-- Parsing reconstructs the raw string as contexts interleaved with
delimited deletions. -/
theorem fromStrAux_reassemble : ∀ (fuel : Nat) (s : List Char),
    interleaveBraced (fromStrAux fuel s).1 (fromStrAux fuel s).2 = s := by
  intro fuel
  induction fuel with
  | zero => intro s; rfl
  | succ fuel ih =>
    intro s
    cases h1 : breakAt lbrace s with
    | none => simp [fromStrAux, h1, interleaveBraced]
    | some pr =>
      obtain ⟨pre, rest⟩ := pr
      cases h2 : breakAt rbrace rest with
      | none => simp [fromStrAux, h1, h2, interleaveBraced]
      | some dr =>
        obtain ⟨del, rest2⟩ := dr
        have hs := breakAt_eq lbrace s pre rest h1
        have hr := breakAt_eq rbrace rest del rest2 h2
        simp only [fromStrAux, h1, h2, interleaveBraced, ih rest2]
        rw [hs, hr]

/-- A prefix of `a` is a prefix of `a ++ b`. -/
theorem prefixOf_append_extend {p a : List Char} (b : List Char)
    (h : p.isPrefixOf a = true) : p.isPrefixOf (a ++ b) = true := by
  induction p generalizing a with
  | nil => simp [List.isPrefixOf]
  | cons x p ih =>
    cases a with
    | nil => simp [List.isPrefixOf] at h
    | cons y a =>
      simp only [List.cons_append, List.isPrefixOf, Bool.and_eq_true] at h ⊢
      exact ⟨h.1, ih h.2⟩

/-- A string with no occurrence of `pat` does not start with `pat`. -/
theorem countOccs_zero_not_start {pat s : List Char} (h : countOccs pat s = 0) :
    ¬ pat.isPrefixOf s = true := by
  cases s with
  | nil =>
    intro hp
    cases pat with
    | nil => simp [countOccs] at h
    | cons x p => simp [List.isPrefixOf] at hp
  | cons x rest =>
    intro hp
    simp [countOccs, hp] at h

/-- Occurrence-freeness descends past the first character. -/
theorem countOccs_zero_cons {pat : List Char} {x : Char} {r : List Char}
    (h : countOccs pat (x :: r) = 0) : countOccs pat r = 0 := by
  cases hp : pat.isPrefixOf (x :: r) with
  | false => simpa [countOccs, hp] using h
  | true => simp [countOccs, hp] at h

/-- The empty pattern occurs in every string. -/
theorem countOccs_nil_pos : ∀ (s : List Char), 0 < countOccs [] s := by
  intro s
  cases s with
  | nil => simp [countOccs]
  | cons x r => simp [countOccs, List.isPrefixOf]

/-- Occurrence-freeness restricts to the right part of a concatenation. -/
theorem countOccs_append_left {pat : List Char} : ∀ (l y : List Char),
    countOccs pat (l ++ y) = 0 → countOccs pat y = 0 := by
  intro l
  induction l with
  | nil => intro y h; simpa using h
  | cons x l ih =>
    intro y h
    exact ih y (countOccs_zero_cons h)

/-- Occurrence-freeness restricts to the left part of a concatenation. -/
theorem countOccs_append_right {pat : List Char} : ∀ (y r : List Char),
    countOccs pat (y ++ r) = 0 → countOccs pat y = 0 := by
  intro y
  induction y with
  | nil =>
    intro r h
    cases hpat : pat with
    | nil =>
      subst hpat
      have := countOccs_nil_pos r
      simp at h
      omega
    | cons a p => simp [countOccs]
  | cons x y ih =>
    intro r h
    have h1 : countOccs pat (y ++ r) = 0 := countOccs_zero_cons h
    have h2 : countOccs pat y = 0 := ih r h1
    have hp : ¬ pat.isPrefixOf (x :: (y ++ r)) = true := countOccs_zero_not_start h
    have hp2 : ¬ pat.isPrefixOf (x :: y) = true := by
      intro hpp
      exact hp (by simpa using prefixOf_append_extend r hpp)
    simp [countOccs, hp2, h2]

/-- When a raw string has no occurrence of `pat`, neither do the context and
deletion pieces of its interleaved decomposition. -/
theorem interleaveBraced_pieces_clean (pat : List Char) : ∀ (ds cs : List (List Char)),
    cs.length = ds.length + 1 → countOccs pat (interleaveBraced cs ds) = 0 →
    (∀ c ∈ cs, countOccs pat c = 0) ∧ (∀ d ∈ ds, countOccs pat d = 0) := by
  intro ds
  induction ds with
  | nil =>
    intro cs hlen h
    cases cs with
    | nil => simp at hlen
    | cons c cs' =>
      cases cs' with
      | nil =>
        refine ⟨?_, by simp⟩
        intro x hx
        simp at hx
        subst hx
        simpa [interleaveBraced] using h
      | cons c2 cs'' => simp at hlen
  | cons d ds ih =>
    intro cs hlen h
    cases cs with
    | nil => simp at hlen
    | cons c cs' =>
      have hlen' : cs'.length = ds.length + 1 := by simpa using hlen
      simp only [interleaveBraced] at h
      have hc : countOccs pat c = 0 := countOccs_append_right _ _ h
      have h1 : countOccs pat (lbrace :: (d ++ rbrace :: interleaveBraced cs' ds)) = 0 :=
        countOccs_append_left c _ h
      have h2 : countOccs pat (d ++ rbrace :: interleaveBraced cs' ds) = 0 :=
        countOccs_zero_cons h1
      have hd : countOccs pat d = 0 := countOccs_append_right _ _ h2
      have h3 : countOccs pat (rbrace :: interleaveBraced cs' ds) = 0 :=
        countOccs_append_left d _ h2
      have h4 : countOccs pat (interleaveBraced cs' ds) = 0 := countOccs_zero_cons h3
      obtain ⟨hcs, hds⟩ := ih cs' hlen' h4
      constructor
      · intro x hx
        rcases List.mem_cons.mp hx with hx | hx
        · subst hx; exact hc
        · exact hcs x hx
      · intro x hx
        rcases List.mem_cons.mp hx with hx | hx
        · subst hx; exact hd
        · exact hds x hx

/-- A pattern matching at the start of `c ++ rest` either matches at the
start of `c`, or `c` is a strict prefix of the pattern whose remainder
matches at the start of `rest`. -/
theorem prefix_append_cases : ∀ (tag c rest : List Char),
    tag.isPrefixOf (c ++ rest) = true →
    tag.isPrefixOf c = true ∨
      (c.length < tag.length ∧ c.isPrefixOf tag = true ∧
        (tag.drop c.length).isPrefixOf rest = true) := by
  intro tag c
  induction c generalizing tag with
  | nil =>
    intro rest h
    cases tag with
    | nil => left; simp [List.isPrefixOf]
    | cons a p =>
      right
      exact ⟨by simp, by simp [List.isPrefixOf], by simpa using h⟩
  | cons x c ih =>
    intro rest h
    cases tag with
    | nil => left; simp [List.isPrefixOf]
    | cons a p =>
      simp only [List.cons_append, List.isPrefixOf, Bool.and_eq_true] at h
      obtain ⟨hax, hp⟩ := h
      have hax' : a = x := by simpa [beq_iff_eq] using hax
      rcases ih p rest hp with h1 | ⟨h2, h3, h4⟩
      · left
        simp only [List.isPrefixOf, Bool.and_eq_true]
        exact ⟨hax, h1⟩
      · right
        refine ⟨by simpa [List.length_cons] using Nat.succ_lt_succ h2, ?_, ?_⟩
        · simp only [List.isPrefixOf, Bool.and_eq_true]
          exact ⟨by simp [beq_iff_eq, hax'], h3⟩
        · simpa [List.length_cons] using h4

/-- `stripTags` does not depend on the fuel, as long as it covers the input
length. -/
theorem stripTags_fuel : ∀ (f1 : Nat) (s : List Char) (f2 : Nat),
    s.length ≤ f1 → s.length ≤ f2 → stripTags f1 s = stripTags f2 s := by
  intro f1
  induction f1 with
  | zero =>
    intro s f2 h1 h2
    have hs : s = [] := List.eq_nil_of_length_eq_zero (Nat.le_zero.mp h1)
    subst hs
    cases f2 <;> rfl
  | succ f1 ih =>
    intro s f2 h1 h2
    cases s with
    | nil => cases f2 <;> rfl
    | cons c rest =>
      cases f2 with
      | zero => simp at h2
      | succ f2 =>
        simp only [stripTags]
        by_cases hbp : bTag.isPrefixOf (c :: rest) = true
        · rw [if_pos hbp, if_pos hbp]
          apply ih
          · simp only [List.length_drop, List.length_cons] at h1 ⊢
            omega
          · simp only [List.length_drop, List.length_cons] at h2 ⊢
            omega
        · rw [if_neg hbp, if_neg hbp]
          by_cases hep : eTag.isPrefixOf (c :: rest) = true
          · rw [if_pos hep, if_pos hep]
            apply ih
            · simp only [List.length_drop, List.length_cons] at h1 ⊢
              omega
            · simp only [List.length_drop, List.length_cons] at h2 ⊢
              omega
          · rw [if_neg hep, if_neg hep]
            rw [ih rest f2 (by simp [List.length_cons] at h1; omega)
              (by simp [List.length_cons] at h2; omega)]

/-- `stripB` consumes an opening tag at the head. -/
theorem stripB_eq_b {s : List Char} (hbp : bTag.isPrefixOf s = true) :
    stripB s = stripB (s.drop 3) := by
  cases s with
  | nil => simp [bTag, List.isPrefixOf] at hbp
  | cons c rest =>
    show stripTags (rest.length + 1) (c :: rest) = _
    simp only [stripTags, if_pos hbp]
    apply stripTags_fuel
    · simp only [List.length_drop, List.length_cons]
      omega
    · exact le_rfl

/-- `stripB` consumes a closing tag at the head. -/
theorem stripB_eq_e {s : List Char} (hnb : ¬ bTag.isPrefixOf s = true)
    (hep : eTag.isPrefixOf s = true) :
    stripB s = stripB (s.drop 4) := by
  cases s with
  | nil => simp [eTag, List.isPrefixOf] at hep
  | cons c rest =>
    show stripTags (rest.length + 1) (c :: rest) = _
    simp only [stripTags, if_neg hnb, if_pos hep]
    apply stripTags_fuel
    · simp only [List.length_drop, List.length_cons]
      omega
    · exact le_rfl

/-- `stripB` keeps a character that starts no tag. -/
theorem stripB_cons {c : Char} {rest : List Char}
    (hnb : ¬ bTag.isPrefixOf (c :: rest) = true)
    (hne : ¬ eTag.isPrefixOf (c :: rest) = true) :
    stripB (c :: rest) = c :: stripB rest := by
  show stripTags (rest.length + 1) (c :: rest) = _
  simp only [stripTags, if_neg hnb, if_neg hne]
  rfl

/-- A nonempty prefix determines the head. -/
theorem prefixOf_head : ∀ (p r : List Char), p.isPrefixOf r = true → p ≠ [] →
    r.head? = p.head? := by
  intro p r hp hne
  cases p with
  | nil => exact absurd rfl hne
  | cons a p' =>
    cases r with
    | nil => simp [List.isPrefixOf] at hp
    | cons b r' =>
      simp only [List.isPrefixOf, Bool.and_eq_true] at hp
      have : a = b := by simpa [beq_iff_eq] using hp.1
      simp [this]

/-- Every proper tail of the opening tag starts with a character other than
a left angle bracket. -/
theorem bTag_drop_head : ∀ k, 1 ≤ k → k < bTag.length →
    ¬ (bTag.drop k).head? = some '<' := by
  intro k h1 h2
  simp only [bTag, List.length_cons, List.length_nil] at h2
  interval_cases k <;> decide

/-- Every proper tail of the closing tag starts with a character other than
a left angle bracket. -/
theorem eTag_drop_head : ∀ k, 1 ≤ k → k < eTag.length →
    ¬ (eTag.drop k).head? = some '<' := by
  intro k h1 h2
  simp only [eTag, List.length_cons, List.length_nil] at h2
  interval_cases k <;> decide

/-- No emphasis tag can match across the boundary between a piece and a
continuation that itself starts with a tag (hence with a left angle
bracket). -/
theorem no_cross_boundary {tag : List Char} (htag : tag = bTag ∨ tag = eTag)
    {c r : List Char} (h2 : c.length < tag.length) (_h3 : c.isPrefixOf tag = true)
    (hne : c ≠ []) (h4 : (tag.drop c.length).isPrefixOf r = true)
    (hhead : r.head? = some '<') : False := by
  have hlen : 0 < (tag.drop c.length).length := by
    simp only [List.length_drop]
    omega
  have hne2 : tag.drop c.length ≠ [] := by
    intro hnil
    rw [hnil] at hlen
    simp at hlen
  have hh := prefixOf_head _ _ h4 hne2
  rw [hhead] at hh
  have hk1 : 1 ≤ c.length := by
    cases c with
    | nil => exact absurd rfl hne
    | cons x c' => simp
  rcases htag with h | h
  · subst h
    exact bTag_drop_head c.length hk1 h2 hh.symm
  · subst h
    exact eTag_drop_head c.length hk1 h2 hh.symm

/-- A tag-free string is left unchanged by the stripper. -/
theorem stripB_clean : ∀ (c : List Char),
    countOccs bTag c = 0 → countOccs eTag c = 0 → stripB c = c := by
  intro c
  induction c with
  | nil => intro _ _; rfl
  | cons x r ih =>
    intro hb he
    rw [stripB_cons (countOccs_zero_not_start hb) (countOccs_zero_not_start he),
      ih (countOccs_zero_cons hb) (countOccs_zero_cons he)]

/-- The stripper passes over a tag-free piece when the continuation starts
with a left angle bracket. -/
theorem stripB_skip : ∀ (c r : List Char),
    countOccs bTag c = 0 → countOccs eTag c = 0 → r.head? = some '<' →
    stripB (c ++ r) = c ++ stripB r := by
  intro c
  induction c with
  | nil => intro r _ _ _; rfl
  | cons x c' ih =>
    intro r hb he hh
    have hpb : ¬ bTag.isPrefixOf (x :: (c' ++ r)) = true := by
      intro hp
      rcases prefix_append_cases bTag (x :: c') r (by simpa using hp) with h1 | ⟨h2, h3, h4⟩
      · exact countOccs_zero_not_start hb h1
      · exact no_cross_boundary (Or.inl rfl) h2 h3 (by simp) h4 hh
    have hpe : ¬ eTag.isPrefixOf (x :: (c' ++ r)) = true := by
      intro hp
      rcases prefix_append_cases eTag (x :: c') r (by simpa using hp) with h1 | ⟨h2, h3, h4⟩
      · exact countOccs_zero_not_start he h1
      · exact no_cross_boundary (Or.inr rfl) h2 h3 (by simp) h4 hh
    rw [List.cons_append, stripB_cons hpb hpe,
      ih r (countOccs_zero_cons hb) (countOccs_zero_cons he) hh]
    rfl

/-- `isPrefixOf` is reflexive (Bool form). -/
theorem prefixOf_self : ∀ (p : List Char), p.isPrefixOf p = true := by
  intro p
  induction p with
  | nil => rfl
  | cons x p ih => simp [List.isPrefixOf, ih]

/-- The stripper removes an opening tag standing at the head. -/
theorem stripB_eat_b (t : List Char) : stripB (bTag ++ t) = stripB t := by
  rw [stripB_eq_b (prefixOf_append_extend t (prefixOf_self bTag))]
  rfl

/-- The stripper removes a closing tag standing at the head. -/
theorem stripB_eat_e (t : List Char) : stripB (eTag ++ t) = stripB t := by
  have hnb : ¬ bTag.isPrefixOf (eTag ++ t) = true := by
    simp [bTag, eTag, List.isPrefixOf]
  rw [stripB_eq_e hnb (prefixOf_append_extend t (prefixOf_self eTag))]
  rfl

/-- Stripping the emphasised interleaving of tag-free pieces yields the bare
interleaving. -/
theorem stripB_interleaveWrap : ∀ (ds cs : List (List Char)),
    cs.length = ds.length + 1 →
    (∀ c ∈ cs, countOccs bTag c = 0 ∧ countOccs eTag c = 0) →
    (∀ d ∈ ds, countOccs bTag d = 0 ∧ countOccs eTag d = 0) →
    stripB (interleaveWrap cs ds) = interleaveCat cs ds := by
  intro ds
  induction ds with
  | nil =>
    intro cs hlen hc _
    cases cs with
    | nil => simp at hlen
    | cons c cs' =>
      cases cs' with
      | nil =>
        have hcc := hc c (by simp)
        simpa [interleaveWrap, interleaveCat] using stripB_clean c hcc.1 hcc.2
      | cons c2 cs'' => simp at hlen
  | cons d ds ih =>
    intro cs hlen hc hd
    cases cs with
    | nil => simp at hlen
    | cons c cs' =>
      have hcc := hc c (by simp)
      have hdd := hd d (by simp)
      have hw : interleaveWrap (c :: cs') (d :: ds) =
          c ++ (bTag ++ (d ++ (eTag ++ interleaveWrap cs' ds))) := by
        show c ++ wrapB d ++ interleaveWrap cs' ds = _
        have hwb : wrapB d = bTag ++ d ++ eTag := rfl
        rw [hwb]
        simp [List.append_assoc]
      rw [hw]
      rw [stripB_skip c _ hcc.1 hcc.2 (by simp [bTag])]
      rw [stripB_eat_b]
      rw [stripB_skip d _ hdd.1 hdd.2 (by simp [eTag])]
      rw [stripB_eat_e]
      rw [ih cs' (by simpa using hlen)
        (fun x hx => hc x (by simp [hx]))
        (fun x hx => hd x (by simp [hx]))]
      show _ = c ++ d ++ interleaveCat cs' ds
      simp [List.append_assoc]

/-- The flattened, truncated interleave of `Cloze.fill` computed through the
cyclic index. -/
theorem flat_take_interleaveGet (w : List (List Char)) : ∀ (ctx : List (List Char)) (i : Nat),
    ((flatPairs (zipCycleAux w i ctx)).take (2 * ctx.length - 1)).flatten =
      interleaveGet w i ctx := by
  intro ctx
  induction ctx with
  | nil => intro i; rfl
  | cons c cs ih =>
    intro i
    cases cs with
    | nil => simp [zipCycleAux, flatPairs, interleaveGet]
    | cons c2 cs2 =>
      have harith : 2 * ((c :: c2 :: cs2).length) - 1 =
          (2 * ((c2 :: cs2).length) - 1) + 1 + 1 := by
        simp only [List.length_cons]
        omega
      have hz : flatPairs (zipCycleAux w i (c :: c2 :: cs2)) =
          c :: w.getD (i % w.length) [] ::
            flatPairs (zipCycleAux w (i + 1) (c2 :: cs2)) := rfl
      rw [hz, harith]
      simp only [List.take_succ_cons, List.flatten_cons]
      rw [ih (i + 1)]
      show _ = c ++ w.getD (i % w.length) [] ++ interleaveGet w (i + 1) (c2 :: cs2)
      simp [List.append_assoc]

/-- Dropping past a valid index exposes that element. -/
theorem drop_eq_getD_cons : ∀ (l : List (List Char)) (i : Nat), i < l.length →
    l.drop i = l.getD i [] :: l.drop (i + 1) := by
  intro l
  induction l with
  | nil => intro i h; simp at h
  | cons x t ih =>
    intro i h
    cases i with
    | zero => simp
    | succ i =>
      have := ih i (by simpa using h)
      simpa using this

/-- `getD` commutes with `map wrapB` at valid indices. -/
theorem getD_map_wrapB : ∀ (l : List (List Char)) (i : Nat), i < l.length →
    (l.map wrapB).getD i [] = wrapB (l.getD i []) := by
  intro l
  induction l with
  | nil => intro i h; simp at h
  | cons x t ih =>
    intro i h
    cases i with
    | zero => simp
    | succ i => simpa using ih i (by simpa using h)

/-- The cyclic-index interleave with the wrapped deletions equals the direct
interleave, as long as the index never wraps around (which the truncation
guarantees). -/
theorem interleaveGet_wrap : ∀ (ctx dels : List (List Char)) (i : Nat),
    ctx.length + i = dels.length + 1 →
    interleaveGet (dels.map wrapB) i ctx = interleaveWrap ctx (dels.drop i) := by
  intro ctx
  induction ctx with
  | nil => intro dels i _; rfl
  | cons c cs ih =>
    intro dels i h
    cases cs with
    | nil =>
      have hdrop : dels.drop i = [] := by
        apply List.drop_eq_nil_of_le
        simp only [List.length_cons, List.length_nil] at h
        omega
      simp [interleaveGet, interleaveWrap, hdrop]
    | cons c2 cs2 =>
      have hlt : i < dels.length := by
        simp only [List.length_cons] at h
        omega
      have hmod : i % (dels.map wrapB).length = i := by
        rw [List.length_map]
        exact Nat.mod_eq_of_lt hlt
      rw [drop_eq_getD_cons dels i hlt]
      show c ++ (dels.map wrapB).getD (i % (dels.map wrapB).length) [] ++
          interleaveGet (dels.map wrapB) (i + 1) (c2 :: cs2) = _
      rw [hmod, getD_map_wrapB dels i hlt,
        ih dels (i + 1) (by simp only [List.length_cons] at h ⊢; omega)]
      rfl

/-- The sentence view fills each interior slot with its own wrapped deletion,
in order (the cyclic reuse never wraps because the interleaving is truncated
at the final context fragment). -/
theorem sentence_eq_interleaveWrap : ∀ (ctx dels : List (List Char)),
    ctx.length = dels.length + 1 →
    Cloze.sentence ⟨ctx, dels⟩ = interleaveWrap ctx dels := by
  intro ctx dels hlen
  cases dels with
  | nil =>
    cases ctx with
    | nil => simp at hlen
    | cons c cs =>
      cases cs with
      | nil =>
        show Cloze.fill ⟨[c], []⟩ [] = _
        unfold Cloze.fill
        show (List.take (2 * ([c] : List (List Char)).length - 1)
            (flatPairs (zipCycleAux [wrapB (str "...")] 0 [c]))).flatten = _
        simp [zipCycleAux, flatPairs, interleaveWrap]
      | cons c2 cs2 => simp at hlen
  | cons d ds =>
    show Cloze.fill ⟨ctx, d :: ds⟩ (d :: ds) = _
    unfold Cloze.fill
    show (List.take (2 * ctx.length - 1)
        (flatPairs (zipCycleAux ((d :: ds).map wrapB) 0 ctx))).flatten = _
    rw [flat_take_interleaveGet]
    rw [interleaveGet_wrap ctx (d :: ds) 0 (by omega)]
    rfl

/-- A parse with no deletions leaves the whole input as the single context
fragment. -/
theorem fromStrAux_nil_deletions : ∀ (fuel : Nat) (s : List Char),
    (fromStrAux fuel s).2 = [] → (fromStrAux fuel s).1 = [s] := by
  intro fuel s h
  cases fuel with
  | zero => rfl
  | succ fuel =>
    cases h1 : breakAt lbrace s with
    | none => simp [fromStrAux, h1]
    | some pr =>
      obtain ⟨pre, rest⟩ := pr
      cases h2 : breakAt rbrace rest with
      | none => simp [fromStrAux, h1, h2]
      | some dr =>
        obtain ⟨del, rest2⟩ := dr
        simp [fromStrAux, h1, h2] at h

/-- C9: for a raw string free of the emphasis tags, parsing and rendering the
sentence view, then stripping the added emphasis markup, reproduces the
string with the matched deletion delimiters removed: the stripped sentence
view is the contexts interleaved with the bare deletions, and the original
string is the same interleaving with the delimiters restored.  With zero
delimiter-marked spans the sentence view is the string itself (this part
needs no tag-freeness). -/
theorem cloze_fill_roundtrip (s : List Char)
    (hb : countOccs bTag s = 0) (he : countOccs eTag s = 0) :
    stripB (Cloze.from_str s).sentence =
        interleaveCat (Cloze.from_str s).context (Cloze.from_str s).deletions ∧
      interleaveBraced (Cloze.from_str s).context (Cloze.from_str s).deletions = s ∧
      ((Cloze.from_str s).deletions = [] → (Cloze.from_str s).sentence = s) := by
  have hre := fromStrAux_reassemble s.length s
  have hlen := fromStrAux_len s.length s
  have hb' := interleaveBraced_pieces_clean bTag (fromStrAux s.length s).2
    (fromStrAux s.length s).1 hlen (by rw [hre]; exact hb)
  have he' := interleaveBraced_pieces_clean eTag (fromStrAux s.length s).2
    (fromStrAux s.length s).1 hlen (by rw [hre]; exact he)
  refine ⟨?_, hre, ?_⟩
  · show stripB (Cloze.sentence ⟨(fromStrAux s.length s).1, (fromStrAux s.length s).2⟩) = _
    rw [sentence_eq_interleaveWrap _ _ hlen]
    exact stripB_interleaveWrap _ _ hlen
      (fun c hc => ⟨hb'.1 c hc, he'.1 c hc⟩)
      (fun d hd => ⟨hb'.2 d hd, he'.2 d hd⟩)
  · intro hnil
    have h2 : (fromStrAux s.length s).2 = [] := hnil
    have h1 : (fromStrAux s.length s).1 = [s] := fromStrAux_nil_deletions s.length s h2
    show Cloze.sentence ⟨(fromStrAux s.length s).1, (fromStrAux s.length s).2⟩ = s
    rw [h1, h2]
    rw [sentence_eq_interleaveWrap [s] [] (by simp)]
    rfl

/-- Witness for C9 on the concrete raw string `"Kocham \x7bpsy\x7d."`. -/
theorem cloze_fill_roundtrip_witness :
    stripB (Cloze.from_str (str "Kocham \x7bpsy\x7d.")).sentence =
        interleaveCat (Cloze.from_str (str "Kocham \x7bpsy\x7d.")).context
          (Cloze.from_str (str "Kocham \x7bpsy\x7d.")).deletions ∧
      interleaveBraced (Cloze.from_str (str "Kocham \x7bpsy\x7d.")).context
          (Cloze.from_str (str "Kocham \x7bpsy\x7d.")).deletions =
        str "Kocham \x7bpsy\x7d." ∧
      ((Cloze.from_str (str "Kocham \x7bpsy\x7d.")).deletions = [] →
        (Cloze.from_str (str "Kocham \x7bpsy\x7d.")).sentence =
          str "Kocham \x7bpsy\x7d.") :=
  cloze_fill_roundtrip (str "Kocham \x7bpsy\x7d.") (by decide) (by decide)
